import Mathlib

/-!
Verification of the field-computation kernel of the fields-visualizer
repository. The definitions below are a shallow embedding, over exact real
arithmetic, of the TypeScript functions in `src/physics/field.ts`,
`src/physics/constants.ts`, `src/physics/units.ts`,
`src/components/FieldFlow.tsx` and `src/components/FieldVectors.tsx`.
Machine floating-point numbers are modelled as real numbers; loops become
folds or fuel-indexed recursions whose fuel is the loop bound written in
the source.
-/

noncomputable section

/-- Three-component vector, as in the `Vector3` interface and the
`[number, number, number]` position triples of the source. -/
abbrev Vec3 : Type := ℝ × ℝ × ℝ

def Vec3.x (v : Vec3) : ℝ := v.1

def Vec3.y (v : Vec3) : ℝ := v.2.1

def Vec3.z (v : Vec3) : ℝ := v.2.2

@[simp] lemma Vec3.x_mk (a b c : ℝ) : Vec3.x (a, b, c) = a := rfl

@[simp] lemma Vec3.y_mk (a b c : ℝ) : Vec3.y (a, b, c) = b := rfl

@[simp] lemma Vec3.z_mk (a b c : ℝ) : Vec3.z (a, b, c) = c := rfl

@[simp] lemma Vec3.zero_mk : (((0 : ℝ), (0 : ℝ), (0 : ℝ)) : Vec3) = 0 := rfl

/-- Field source: position in scene units and signed scalar value
(charge or mass), as in `FieldSource` of `src/physics/types.ts`.
The identity and kind fields play no role in the numerics. -/
structure FieldSource where
  position : Vec3
  value : ℝ

/-- Field mode enumeration from `src/physics/types.ts`. -/
inductive FieldMode where
  | electric
  | gravity
deriving DecidableEq

/-- Coulomb constant from `src/physics/constants.ts`. -/
def COULOMB_CONSTANT : ℝ := 8.99e9

/-- Gravitational constant from `src/physics/constants.ts`. -/
def GRAVITATIONAL_CONSTANT : ℝ := 6.674e-11

/-- Minimum distance (scene units) from `src/physics/constants.ts`. -/
def MIN_DISTANCE : ℝ := 0.1

/-- Scene-unit to meter scale from `src/physics/units.ts`. -/
def METERS_PER_SCENE_UNIT : ℝ := 0.1

/-- Conversion from scene coordinates to meters, `sceneToMeters` in
`src/physics/units.ts`. -/
def sceneToMeters (pos : Vec3) : Vec3 :=
  (pos.x * METERS_PER_SCENE_UNIT,
   pos.y * METERS_PER_SCENE_UNIT,
   pos.z * METERS_PER_SCENE_UNIT)

/-- Conversion from meters back to scene units, `metersToScene` in
`src/physics/units.ts` (inlined at the end of `findEquilibriumPoint`). -/
def metersToScene (pos : Vec3) : Vec3 :=
  (pos.x / METERS_PER_SCENE_UNIT,
   pos.y / METERS_PER_SCENE_UNIT,
   pos.z / METERS_PER_SCENE_UNIT)

/-- Euclidean distance between two points, the `distance` helper defined
identically in `field.ts`, `FieldFlow.tsx` and `FieldVectors.tsx`. -/
def distance (p1 p2 : Vec3) : ℝ :=
  Real.sqrt ((p2.x - p1.x) * (p2.x - p1.x) + (p2.y - p1.y) * (p2.y - p1.y) +
    (p2.z - p1.z) * (p2.z - p1.z))

/-- Clamped direction vector from `p1` to `p2`, the `unitVector` helper of
`field.ts`: the difference divided by `max (distance) MIN_DISTANCE`.
Note that the clamp constant is the raw scene-unit `MIN_DISTANCE`, applied
to whatever coordinates the caller passes in. -/
def unitVector (vfrom vto : Vec3) : Vec3 :=
  ((vto.x - vfrom.x) / max (distance vfrom vto) MIN_DISTANCE,
   (vto.y - vfrom.y) / max (distance vfrom vto) MIN_DISTANCE,
   (vto.z - vfrom.z) / max (distance vfrom vto) MIN_DISTANCE)

/-- Clamped inter-point distance in meters used by the field and potential
loops of `field.ts`: `Math.max(distance(pointMeters, sourceMeters),
MIN_DISTANCE * METERS_PER_SCENE_UNIT)`. -/
def rMeters (pm sm : Vec3) : ℝ :=
  max (distance pm sm) (MIN_DISTANCE * METERS_PER_SCENE_UNIT)

/-- Electric per-source magnitude `k * Q / r^2` computed inside the loop of
`computeElectricFieldAtPoint`. -/
def elecMagnitude (pm sm : Vec3) (value : ℝ) : ℝ :=
  COULOMB_CONSTANT * value / (rMeters pm sm * rMeters pm sm)

/-- Gravitational per-source magnitude `G * M / r^2` computed inside the
loop of `computeGravitationalFieldAtPoint`. -/
def gravMagnitude (pm sm : Vec3) (value : ℝ) : ℝ :=
  GRAVITATIONAL_CONSTANT * value / (rMeters pm sm * rMeters pm sm)

/-- One loop iteration of `computeElectricFieldAtPoint`: the vector added
to the accumulator for one source (magnitude times the clamped direction
from the source to the point). -/
def elecContrib (pm : Vec3) (s : FieldSource) : Vec3 :=
  elecMagnitude pm (sceneToMeters s.position) s.value •
    unitVector (sceneToMeters s.position) pm

/-- One loop iteration of `computeGravitationalFieldAtPoint`: magnitude
times the clamped direction from the point to the source. -/
def gravContrib (pm : Vec3) (s : FieldSource) : Vec3 :=
  gravMagnitude pm (sceneToMeters s.position) s.value •
    unitVector pm (sceneToMeters s.position)

/-- The function `computeElectricFieldAtPoint` of `field.ts`: convert the
query point to meters, then accumulate the per-source contributions
starting from the zero vector, in list order. -/
def computeElectricFieldAtPoint (point : Vec3) (sources : List FieldSource) : Vec3 :=
  sources.foldl (fun E s => E + elecContrib (sceneToMeters point) s)
    (((0 : ℝ), (0 : ℝ), (0 : ℝ)) : Vec3)

/-- The function `computeGravitationalFieldAtPoint` of `field.ts`. -/
def computeGravitationalFieldAtPoint (point : Vec3) (sources : List FieldSource) : Vec3 :=
  sources.foldl (fun G s => G + gravContrib (sceneToMeters point) s)
    (((0 : ℝ), (0 : ℝ), (0 : ℝ)) : Vec3)

/-- The function `computeElectricPotentialAtPoint` of `field.ts`. -/
def computeElectricPotentialAtPoint (point : Vec3) (sources : List FieldSource) : ℝ :=
  sources.foldl
    (fun acc s =>
      acc + COULOMB_CONSTANT * s.value / rMeters (sceneToMeters point) (sceneToMeters s.position))
    0

/-- The function `computeGravitationalPotentialAtPoint` of `field.ts`. -/
def computeGravitationalPotentialAtPoint (point : Vec3) (sources : List FieldSource) : ℝ :=
  sources.foldl
    (fun acc s =>
      acc - GRAVITATIONAL_CONSTANT * s.value / rMeters (sceneToMeters point) (sceneToMeters s.position))
    0

/-- The function `computeForceOnTestCharge` of `field.ts`: the field for
the active mode scaled componentwise by the test value. -/
def computeForceOnTestCharge (point : Vec3) (testValue : ℝ) (mode : FieldMode)
    (sources : List FieldSource) : Vec3 :=
  let field := match mode with
    | FieldMode.electric => computeElectricFieldAtPoint point sources
    | FieldMode.gravity => computeGravitationalFieldAtPoint point sources
  (field.x * testValue, field.y * testValue, field.z * testValue)

/-- Magnitude of a field vector, `Math.sqrt(f.x ** 2 + f.y ** 2 + f.z ** 2)`
as computed throughout the source. -/
def fieldMagnitude (v : Vec3) : ℝ :=
  Real.sqrt (v.x ^ 2 + v.y ^ 2 + v.z ^ 2)

/- Accumulation lemma: a fold that only ever adds vectors to its
accumulator splits off its initial value. -/
lemma foldl_add_shift (f : FieldSource → Vec3) :
    ∀ (l : List FieldSource) (v : Vec3),
      l.foldl (fun E s => E + f s) v =
        v + l.foldl (fun E s => E + f s) (((0 : ℝ), (0 : ℝ), (0 : ℝ)) : Vec3) := by
  intro l
  induction l with
  | nil => intro v; simp
  | cons a t ih =>
    intro v
    simp only [List.foldl_cons]
    rw [ih (v + f a), ih (((0 : ℝ), (0 : ℝ), (0 : ℝ)) + f a)]
    simp [add_assoc]

@[simp] lemma Vec3.add_x (v w : Vec3) : (v + w).x = v.x + w.x := rfl

@[simp] lemma Vec3.add_y (v w : Vec3) : (v + w).y = v.y + w.y := rfl

@[simp] lemma Vec3.add_z (v w : Vec3) : (v + w).z = v.z + w.z := rfl

@[simp] lemma Vec3.sub_x (v w : Vec3) : (v - w).x = v.x - w.x := rfl

@[simp] lemma Vec3.sub_y (v w : Vec3) : (v - w).y = v.y - w.y := rfl

@[simp] lemma Vec3.sub_z (v w : Vec3) : (v - w).z = v.z - w.z := rfl

@[simp] lemma Vec3.smul_x (c : ℝ) (v : Vec3) : (c • v).x = c * v.x := rfl

@[simp] lemma Vec3.smul_y (c : ℝ) (v : Vec3) : (c • v).y = c * v.y := rfl

@[simp] lemma Vec3.smul_z (c : ℝ) (v : Vec3) : (c • v).z = c * v.z := rfl

lemma Vec3.ext_xyz {p q : Vec3} (hx : p.x = q.x) (hy : p.y = q.y) (hz : p.z = q.z) :
    p = q := by
  obtain ⟨a, b, c⟩ := p
  obtain ⟨d, e, f⟩ := q
  simp only [Vec3.x_mk, Vec3.y_mk, Vec3.z_mk] at hx hy hz
  rw [hx, hy, hz]

lemma distance_nonneg (p q : Vec3) : 0 ≤ distance p q := Real.sqrt_nonneg _

lemma distance_comm (p q : Vec3) : distance p q = distance q p := by
  unfold distance
  congr 1
  ring

lemma distance_x_axis (a b c e : ℝ) : distance (a, c, e) (b, c, e) = |b - a| := by
  unfold distance
  simp only [Vec3.x_mk, Vec3.y_mk, Vec3.z_mk, sub_self, mul_zero, zero_mul, add_zero]
  exact Real.sqrt_mul_self_eq_abs _

lemma fieldMagnitude_x_axis (a : ℝ) : fieldMagnitude (a, 0, 0) = |a| := by
  unfold fieldMagnitude
  simp only [Vec3.x_mk, Vec3.y_mk, Vec3.z_mk]
  rw [show a ^ 2 + 0 ^ 2 + 0 ^ 2 = a ^ 2 by ring, Real.sqrt_sq_eq_abs]

lemma distance_pos_of_ne {p q : Vec3} (h : p ≠ q) : 0 < distance p q := by
  unfold distance
  apply Real.sqrt_pos.2
  rcases lt_or_eq_of_le (add_nonneg (add_nonneg (mul_self_nonneg (q.x - p.x))
      (mul_self_nonneg (q.y - p.y))) (mul_self_nonneg (q.z - p.z))) with hlt | heq
  · exact hlt
  · exfalso
    apply h
    have hx : (q.x - p.x) * (q.x - p.x) = 0 := by
      nlinarith [mul_self_nonneg (q.x - p.x), mul_self_nonneg (q.y - p.y),
        mul_self_nonneg (q.z - p.z)]
    have hy : (q.y - p.y) * (q.y - p.y) = 0 := by
      nlinarith [mul_self_nonneg (q.x - p.x), mul_self_nonneg (q.y - p.y),
        mul_self_nonneg (q.z - p.z)]
    have hz : (q.z - p.z) * (q.z - p.z) = 0 := by
      nlinarith [mul_self_nonneg (q.x - p.x), mul_self_nonneg (q.y - p.y),
        mul_self_nonneg (q.z - p.z)]
    exact Vec3.ext_xyz (by nlinarith) (by nlinarith) (by nlinarith)

lemma unitVector_eq_smul (vfrom vto : Vec3) :
    unitVector vfrom vto = (max (distance vfrom vto) MIN_DISTANCE)⁻¹ • (vto - vfrom) := by
  unfold unitVector
  refine Vec3.ext_xyz ?_ ?_ ?_ <;>
    simp only [Vec3.x_mk, Vec3.y_mk, Vec3.z_mk, Vec3.smul_x, Vec3.smul_y, Vec3.smul_z,
      Vec3.sub_x, Vec3.sub_y, Vec3.sub_z] <;>
    rw [div_eq_mul_inv, mul_comm]

lemma computeElectric_single (p : Vec3) (s : FieldSource) :
    computeElectricFieldAtPoint p [s] = elecContrib (sceneToMeters p) s := by
  simp [computeElectricFieldAtPoint]

lemma computeGravitational_single (p : Vec3) (s : FieldSource) :
    computeGravitationalFieldAtPoint p [s] = gravContrib (sceneToMeters p) s := by
  simp [computeGravitationalFieldAtPoint]

lemma MIN_DISTANCE_pos : (0 : ℝ) < MIN_DISTANCE := by norm_num [MIN_DISTANCE]

lemma rMeters_ge (pm sm : Vec3) :
    MIN_DISTANCE * METERS_PER_SCENE_UNIT ≤ rMeters pm sm := le_max_right _ _

lemma rMeters_pos (pm sm : Vec3) : 0 < rMeters pm sm := by
  refine lt_of_lt_of_le ?_ (rMeters_ge pm sm)
  norm_num [MIN_DISTANCE, METERS_PER_SCENE_UNIT]

lemma clampDenom_pos (vfrom vto : Vec3) :
    0 < max (distance vfrom vto) MIN_DISTANCE :=
  lt_of_lt_of_le MIN_DISTANCE_pos (le_max_right _ _)

/- The magnitude of a scaled clamped direction vector: the absolute scale
times the ratio of the true distance to the clamped denominator. -/
lemma fieldMagnitude_smul_unitVector (m : ℝ) (vfrom vto : Vec3) :
    fieldMagnitude (m • unitVector vfrom vto) =
      |m| * (distance vfrom vto / max (distance vfrom vto) MIN_DISTANCE) := by
  have hr : 0 < max (distance vfrom vto) MIN_DISTANCE := clampDenom_pos vfrom vto
  set r := max (distance vfrom vto) MIN_DISTANCE with hrdef
  have hsum :
      (m * ((vto.x - vfrom.x) / r)) ^ 2 + (m * ((vto.y - vfrom.y) / r)) ^ 2 +
        (m * ((vto.z - vfrom.z) / r)) ^ 2 =
      (|m| / r) ^ 2 *
        ((vto.x - vfrom.x) * (vto.x - vfrom.x) + (vto.y - vfrom.y) * (vto.y - vfrom.y) +
          (vto.z - vfrom.z) * (vto.z - vfrom.z)) := by
    rw [div_pow, sq_abs]
    field_simp
    ring
  show Real.sqrt _ = _
  rw [show (m • unitVector vfrom vto).x = m * ((vto.x - vfrom.x) / r) from rfl,
    show (m • unitVector vfrom vto).y = m * ((vto.y - vfrom.y) / r) from rfl,
    show (m • unitVector vfrom vto).z = m * ((vto.z - vfrom.z) / r) from rfl,
    hsum, Real.sqrt_mul (sq_nonneg _), Real.sqrt_sq (by positivity : (0:ℝ) ≤ |m| / r)]
  rw [distance]
  ring

lemma unit_ratio_le_one (vfrom vto : Vec3) :
    distance vfrom vto / max (distance vfrom vto) MIN_DISTANCE ≤ 1 := by
  rw [div_le_one (clampDenom_pos vfrom vto)]
  exact le_max_left _ _

/-- C2. Clamp boundedness and denominator safety, single source: the
clamped denominator is strictly positive, and the magnitude of the electric
and gravitational fields of a single source, as well as the electric
potential and the force on a test charge, never exceed the value obtained
at the clamp floor `r = MIN_DISTANCE * METERS_PER_SCENE_UNIT`, however
close the query point is to the source. -/
theorem clamp_boundedness (p : Vec3) (s : FieldSource) (t : ℝ) :
    0 < rMeters (sceneToMeters p) (sceneToMeters s.position) ∧
    fieldMagnitude (computeElectricFieldAtPoint p [s]) ≤
      COULOMB_CONSTANT * |s.value| /
        ((MIN_DISTANCE * METERS_PER_SCENE_UNIT) * (MIN_DISTANCE * METERS_PER_SCENE_UNIT)) ∧
    fieldMagnitude (computeGravitationalFieldAtPoint p [s]) ≤
      GRAVITATIONAL_CONSTANT * |s.value| /
        ((MIN_DISTANCE * METERS_PER_SCENE_UNIT) * (MIN_DISTANCE * METERS_PER_SCENE_UNIT)) ∧
    |computeElectricPotentialAtPoint p [s]| ≤
      COULOMB_CONSTANT * |s.value| / (MIN_DISTANCE * METERS_PER_SCENE_UNIT) ∧
    fieldMagnitude (computeForceOnTestCharge p t FieldMode.electric [s]) ≤
      |t| * (COULOMB_CONSTANT * |s.value| /
        ((MIN_DISTANCE * METERS_PER_SCENE_UNIT) * (MIN_DISTANCE * METERS_PER_SCENE_UNIT))) := by
  set pm := sceneToMeters p with hpm
  set sm := sceneToMeters s.position with hsm
  have hrpos : 0 < rMeters pm sm := rMeters_pos pm sm
  have hrge : MIN_DISTANCE * METERS_PER_SCENE_UNIT ≤ rMeters pm sm := rMeters_ge pm sm
  have hcpos : (0 : ℝ) < MIN_DISTANCE * METERS_PER_SCENE_UNIT := by
    norm_num [MIN_DISTANCE, METERS_PER_SCENE_UNIT]
  have hrr : (MIN_DISTANCE * METERS_PER_SCENE_UNIT) * (MIN_DISTANCE * METERS_PER_SCENE_UNIT) ≤
      rMeters pm sm * rMeters pm sm :=
    mul_le_mul hrge hrge (le_of_lt hcpos) (le_of_lt hrpos)
  have habs : ∀ C : ℝ, 0 < C → |C * s.value / (rMeters pm sm * rMeters pm sm)| ≤
      C * |s.value| / ((MIN_DISTANCE * METERS_PER_SCENE_UNIT) * (MIN_DISTANCE * METERS_PER_SCENE_UNIT)) := by
    intro C hC
    rw [abs_div, abs_mul, abs_of_pos hC, abs_of_pos (by positivity : (0:ℝ) < rMeters pm sm * rMeters pm sm)]
    gcongr
  have hEsingle : computeElectricFieldAtPoint p [s] = elecContrib pm s := by
    simp [computeElectricFieldAtPoint, hpm]
  have hGsingle : computeGravitationalFieldAtPoint p [s] = gravContrib pm s := by
    simp [computeGravitationalFieldAtPoint, hpm]
  have hEbound : fieldMagnitude (computeElectricFieldAtPoint p [s]) ≤
      COULOMB_CONSTANT * |s.value| /
        ((MIN_DISTANCE * METERS_PER_SCENE_UNIT) * (MIN_DISTANCE * METERS_PER_SCENE_UNIT)) := by
    rw [hEsingle]
    unfold elecContrib
    rw [fieldMagnitude_smul_unitVector]
    calc |elecMagnitude pm sm s.value| * (distance sm pm / max (distance sm pm) MIN_DISTANCE)
        ≤ |elecMagnitude pm sm s.value| * 1 :=
          mul_le_mul_of_nonneg_left (unit_ratio_le_one sm pm) (abs_nonneg _)
      _ = |elecMagnitude pm sm s.value| := mul_one _
      _ ≤ _ := by
          unfold elecMagnitude
          exact habs COULOMB_CONSTANT (by norm_num [COULOMB_CONSTANT])
  refine ⟨hrpos, hEbound, ?_, ?_, ?_⟩
  · rw [hGsingle]
    unfold gravContrib
    rw [fieldMagnitude_smul_unitVector]
    calc |gravMagnitude pm sm s.value| * (distance pm sm / max (distance pm sm) MIN_DISTANCE)
        ≤ |gravMagnitude pm sm s.value| * 1 :=
          mul_le_mul_of_nonneg_left (unit_ratio_le_one pm sm) (abs_nonneg _)
      _ = |gravMagnitude pm sm s.value| := mul_one _
      _ ≤ _ := by
          unfold gravMagnitude
          exact habs GRAVITATIONAL_CONSTANT (by norm_num [GRAVITATIONAL_CONSTANT])
  · have hpot : computeElectricPotentialAtPoint p [s] =
        COULOMB_CONSTANT * s.value / rMeters pm sm := by
      simp [computeElectricPotentialAtPoint, hpm]
    rw [hpot, abs_div, abs_mul, abs_of_pos (by norm_num [COULOMB_CONSTANT] : (0:ℝ) < COULOMB_CONSTANT),
      abs_of_pos hrpos]
    gcongr
    exact mul_nonneg (by norm_num [COULOMB_CONSTANT]) (abs_nonneg _)
  · have hforce : computeForceOnTestCharge p t FieldMode.electric [s] =
        ((computeElectricFieldAtPoint p [s]).x * t,
         (computeElectricFieldAtPoint p [s]).y * t,
         (computeElectricFieldAtPoint p [s]).z * t) := rfl
    have hscale : fieldMagnitude (computeForceOnTestCharge p t FieldMode.electric [s]) =
        |t| * fieldMagnitude (computeElectricFieldAtPoint p [s]) := by
      rw [hforce]
      unfold fieldMagnitude
      simp only [Vec3.x_mk, Vec3.y_mk, Vec3.z_mk]
      rw [show ∀ a b c : ℝ, (a * t) ^ 2 + (b * t) ^ 2 + (c * t) ^ 2 = t ^ 2 * (a ^ 2 + b ^ 2 + c ^ 2)
        from fun a b c => by ring]
      rw [Real.sqrt_mul (sq_nonneg t), Real.sqrt_sq_eq_abs]
    rw [hscale]
    exact mul_le_mul_of_nonneg_left hEbound (abs_nonneg t)

/-- Unit vector as written in the specification: the difference divided by
the true distance, with no clamp. Stated separately from the `unitVector`
of the source so the two can be compared. -/
def specUnitVector (vfrom vto : Vec3) : Vec3 :=
  ((vto.x - vfrom.x) / distance vfrom vto,
   (vto.y - vfrom.y) / distance vfrom vto,
   (vto.z - vfrom.z) / distance vfrom vto)

lemma unitVector_eq_spec (vfrom vto : Vec3) (h : MIN_DISTANCE ≤ distance vfrom vto) :
    unitVector vfrom vto = specUnitVector vfrom vto := by
  unfold unitVector specUnitVector
  rw [max_eq_left h]

lemma elecMagnitude_pos (pm sm : Vec3) {v : ℝ} (hv : 0 < v) :
    0 < elecMagnitude pm sm v := by
  unfold elecMagnitude
  have hk : (0:ℝ) < COULOMB_CONSTANT := by norm_num [COULOMB_CONSTANT]
  have hr := rMeters_pos pm sm
  positivity

lemma elecMagnitude_neg (pm sm : Vec3) {v : ℝ} (hv : v < 0) :
    elecMagnitude pm sm v < 0 := by
  unfold elecMagnitude
  have hk : (0:ℝ) < COULOMB_CONSTANT := by norm_num [COULOMB_CONSTANT]
  have hr := rMeters_pos pm sm
  exact div_neg_of_neg_of_pos (mul_neg_of_pos_of_neg hk hv) (by positivity)

lemma gravMagnitude_pos (pm sm : Vec3) {v : ℝ} (hv : 0 < v) :
    0 < gravMagnitude pm sm v := by
  unfold gravMagnitude
  have hk : (0:ℝ) < GRAVITATIONAL_CONSTANT := by norm_num [GRAVITATIONAL_CONSTANT]
  have hr := rMeters_pos pm sm
  positivity

/-- C5 (amended). Direction of a single-source contribution. For any query
point distinct from the source: with a positive value the electric field of
the single source is a strictly positive multiple of the vector from the
source to the point, with a negative value a strictly positive multiple of
the vector from the point to the source, and with a positive value the
gravitational field is a strictly positive multiple of the vector from the
point to the source. The exact identity contribution = magnitude times the
true unit vector holds whenever the source-to-point distance in meters is
at least the clamp constant of `unitVector` (0.1, one scene unit); for
closer points the contribution is scaled down by distance / 0.1 (see the
counterexample). -/
theorem contribution_direction (s : FieldSource) (p : Vec3) :
    (p ≠ s.position → 0 < s.value →
      ∃ c : ℝ, 0 < c ∧ computeElectricFieldAtPoint p [s] =
        c • (sceneToMeters p - sceneToMeters s.position)) ∧
    (p ≠ s.position → s.value < 0 →
      ∃ c : ℝ, 0 < c ∧ computeElectricFieldAtPoint p [s] =
        c • (sceneToMeters s.position - sceneToMeters p)) ∧
    (p ≠ s.position → 0 < s.value →
      ∃ c : ℝ, 0 < c ∧ computeGravitationalFieldAtPoint p [s] =
        c • (sceneToMeters s.position - sceneToMeters p)) ∧
    (MIN_DISTANCE ≤ distance (sceneToMeters s.position) (sceneToMeters p) →
      computeElectricFieldAtPoint p [s] =
        elecMagnitude (sceneToMeters p) (sceneToMeters s.position) s.value •
          specUnitVector (sceneToMeters s.position) (sceneToMeters p) ∧
      computeGravitationalFieldAtPoint p [s] =
        gravMagnitude (sceneToMeters p) (sceneToMeters s.position) s.value •
          specUnitVector (sceneToMeters p) (sceneToMeters s.position)) := by
  set pm := sceneToMeters p with hpm
  set sm := sceneToMeters s.position with hsm
  have hE : computeElectricFieldAtPoint p [s] =
      elecMagnitude pm sm s.value • unitVector sm pm :=
    computeElectric_single p s
  have hG : computeGravitationalFieldAtPoint p [s] =
      gravMagnitude pm sm s.value • unitVector pm sm :=
    computeGravitational_single p s
  have hclampE : (0:ℝ) < max (distance sm pm) MIN_DISTANCE := clampDenom_pos sm pm
  have hclampG : (0:ℝ) < max (distance pm sm) MIN_DISTANCE := clampDenom_pos pm sm
  refine ⟨?_, ?_, ?_, ?_⟩
  · intro _ hv
    refine ⟨elecMagnitude pm sm s.value * (max (distance sm pm) MIN_DISTANCE)⁻¹,
      by have := elecMagnitude_pos pm sm hv; positivity, ?_⟩
    rw [hE, unitVector_eq_smul, smul_smul]
  · intro _ hv
    refine ⟨-(elecMagnitude pm sm s.value * (max (distance sm pm) MIN_DISTANCE)⁻¹),
      ?_, ?_⟩
    · have := elecMagnitude_neg pm sm hv
      have : elecMagnitude pm sm s.value * (max (distance sm pm) MIN_DISTANCE)⁻¹ < 0 :=
        mul_neg_of_neg_of_pos this (by positivity)
      linarith
    · rw [hE, unitVector_eq_smul, smul_smul, show sm - pm = -(pm - sm) from (neg_sub pm sm).symm,
        smul_neg, neg_smul, neg_neg]
  · intro _ hv
    refine ⟨gravMagnitude pm sm s.value * (max (distance pm sm) MIN_DISTANCE)⁻¹,
      by have := gravMagnitude_pos pm sm hv; positivity, ?_⟩
    rw [hG, unitVector_eq_smul, smul_smul]
  · intro hfar
    constructor
    · rw [hE, unitVector_eq_spec sm pm hfar]
    · rw [hG, unitVector_eq_spec pm sm (by rwa [distance_comm])]

/-- C5 witness: a concrete instance of the amended direction theorem. The
query point `(2, 0, 0)` is two scene units (0.2 meters) from a unit
positive charge at the origin, beyond the clamp, so the contribution is
exactly the code magnitude times the true unit vector. -/
theorem contribution_direction_witness :
    computeElectricFieldAtPoint ((2:ℝ), 0, 0) [⟨((0:ℝ), 0, 0), 1⟩] =
      elecMagnitude (sceneToMeters ((2:ℝ), 0, 0)) (sceneToMeters ((0:ℝ), 0, 0)) 1 •
        specUnitVector (sceneToMeters ((0:ℝ), 0, 0)) (sceneToMeters ((2:ℝ), 0, 0)) := by
  have hd : distance (sceneToMeters ((0:ℝ), 0, 0)) (sceneToMeters ((2:ℝ), 0, 0)) = 0.2 := by
    unfold sceneToMeters METERS_PER_SCENE_UNIT
    simp only [Vec3.x_mk, Vec3.y_mk, Vec3.z_mk, zero_mul, mul_zero]
    rw [show ((2:ℝ) * 0.1 : ℝ) = 0.2 by norm_num, distance_x_axis]
    norm_num
  have h := (contribution_direction ⟨((0:ℝ), 0, 0), 1⟩ ((2:ℝ), 0, 0)).2.2.2
    (by rw [hd]; norm_num [MIN_DISTANCE])
  exact h.1

/- Evaluation of one electric contribution for an x-axis configuration:
query point given in meters, source given in scene units. -/
lemma elecContrib_x_axis (pxm sx v : ℝ) :
    elecContrib ((pxm : ℝ), 0, 0) ⟨((sx : ℝ), 0, 0), v⟩ =
      (COULOMB_CONSTANT * v /
          (max |pxm - sx * METERS_PER_SCENE_UNIT| (MIN_DISTANCE * METERS_PER_SCENE_UNIT) *
            max |pxm - sx * METERS_PER_SCENE_UNIT| (MIN_DISTANCE * METERS_PER_SCENE_UNIT)) *
        ((pxm - sx * METERS_PER_SCENE_UNIT) /
          max |pxm - sx * METERS_PER_SCENE_UNIT| MIN_DISTANCE),
       0, 0) := by
  have hsm : sceneToMeters ((sx:ℝ), 0, 0) = ((sx * METERS_PER_SCENE_UNIT : ℝ), 0, 0) := by
    unfold sceneToMeters
    simp only [Vec3.x_mk, Vec3.y_mk, Vec3.z_mk, zero_mul]
  have hdpm : distance (((pxm:ℝ), 0, 0) : Vec3) (((sx * METERS_PER_SCENE_UNIT:ℝ), 0, 0) : Vec3) =
      |pxm - sx * METERS_PER_SCENE_UNIT| := by
    rw [distance_x_axis, abs_sub_comm]
  have hdsp : distance (((sx * METERS_PER_SCENE_UNIT:ℝ), 0, 0) : Vec3) (((pxm:ℝ), 0, 0) : Vec3) =
      |pxm - sx * METERS_PER_SCENE_UNIT| := by
    rw [distance_x_axis]
  unfold elecContrib elecMagnitude rMeters unitVector
  rw [hsm]
  refine Vec3.ext_xyz ?_ ?_ ?_ <;>
    simp only [Vec3.x_mk, Vec3.y_mk, Vec3.z_mk, Vec3.smul_x, Vec3.smul_y, Vec3.smul_z,
      hdpm, hdsp, sub_self, zero_div, mul_zero]

/-- C5 counterexample: at one half scene unit (0.05 meters) from the
source the clamp in `unitVector` is active, so the computed contribution is
half of magnitude times the true unit vector, refuting the unconditional
equality stated in the claim. -/
theorem contribution_unit_counterexample :
    computeElectricFieldAtPoint ((0.5:ℝ), 0, 0) [⟨((0:ℝ), 0, 0), 1⟩] ≠
      elecMagnitude (sceneToMeters ((0.5:ℝ), 0, 0)) (sceneToMeters ((0:ℝ), 0, 0)) 1 •
        specUnitVector (sceneToMeters ((0:ℝ), 0, 0)) (sceneToMeters ((0.5:ℝ), 0, 0)) := by
  have hpm : sceneToMeters ((0.5:ℝ), 0, 0) = ((0.05:ℝ), 0, 0) := by
    unfold sceneToMeters METERS_PER_SCENE_UNIT
    simp only [Vec3.x_mk, Vec3.y_mk, Vec3.z_mk, zero_mul]
    norm_num
  have hsm : sceneToMeters ((0:ℝ), 0, 0) = ((0:ℝ), 0, 0) := by
    unfold sceneToMeters METERS_PER_SCENE_UNIT
    simp only [Vec3.x_mk, Vec3.y_mk, Vec3.z_mk, zero_mul]
  have hd : distance (((0:ℝ), 0, 0) : Vec3) (((0.05:ℝ), 0, 0) : Vec3) = 0.05 := by
    rw [distance_x_axis]; norm_num
  have hd2 : distance (((0.05:ℝ), 0, 0) : Vec3) (((0:ℝ), 0, 0) : Vec3) = 0.05 := by
    rw [distance_x_axis]; norm_num
  have hL : elecContrib ((0.05:ℝ), 0, 0) ⟨((0:ℝ), 0, 0), 1⟩ =
      ((COULOMB_CONSTANT * 200 : ℝ), 0, 0) := by
    rw [elecContrib_x_axis]
    refine Vec3.ext_xyz ?_ rfl rfl
    simp only [Vec3.x_mk]
    unfold MIN_DISTANCE METERS_PER_SCENE_UNIT
    rw [show (0.05:ℝ) - 0 * 0.1 = 0.05 by norm_num,
      abs_of_pos (by norm_num : (0:ℝ) < 0.05),
      max_eq_left (by norm_num : (0.1:ℝ) * 0.1 ≤ 0.05),
      max_eq_right (by norm_num : (0.05:ℝ) ≤ 0.1)]
    ring_nf
  have hR : elecMagnitude ((0.05:ℝ), 0, 0) ((0:ℝ), 0, 0) 1 •
      specUnitVector ((0:ℝ), 0, 0) ((0.05:ℝ), 0, 0) = ((COULOMB_CONSTANT * 400 : ℝ), 0, 0) := by
    unfold elecMagnitude rMeters specUnitVector
    rw [hd, hd2]
    refine Vec3.ext_xyz ?_ ?_ ?_ <;>
      simp only [Vec3.x_mk, Vec3.y_mk, Vec3.z_mk, Vec3.smul_x, Vec3.smul_y, Vec3.smul_z,
        sub_self, zero_div, mul_zero]
    unfold MIN_DISTANCE METERS_PER_SCENE_UNIT
    rw [max_eq_left (by norm_num : (0.1:ℝ) * 0.1 ≤ 0.05)]
    ring_nf
  intro h
  rw [computeElectric_single, hpm, hsm, hL, hR] at h
  have hx := congrArg Vec3.x h
  simp only [Vec3.x_mk] at hx
  norm_num [COULOMB_CONSTANT] at hx

/-- Iterative refinement loop at the end of `findEquilibriumPoint`
(`MAX_ITERATIONS = 10`, `TOLERANCE = 1e-15`): evaluate the electric field
at the current scene-coordinate estimate; stop if the magnitude is below
tolerance (or below `1e-20`), otherwise step opposite to the field
direction by `fieldMag * 1e-6` meters converted to scene units. The local
variables of the loop body are inlined. -/
def equilibriumRefine (sources : List FieldSource) : ℕ → Vec3 → Vec3
  | 0, pos => pos
  | n + 1, pos =>
    if fieldMagnitude (computeElectricFieldAtPoint pos sources) < 1e-15 then pos
    else if fieldMagnitude (computeElectricFieldAtPoint pos sources) < 1e-20 then pos
    else
      equilibriumRefine sources n
        (pos.x + -(computeElectricFieldAtPoint pos sources).x /
            fieldMagnitude (computeElectricFieldAtPoint pos sources) *
            (fieldMagnitude (computeElectricFieldAtPoint pos sources) * 1e-6) /
            METERS_PER_SCENE_UNIT,
         pos.y + -(computeElectricFieldAtPoint pos sources).y /
            fieldMagnitude (computeElectricFieldAtPoint pos sources) *
            (fieldMagnitude (computeElectricFieldAtPoint pos sources) * 1e-6) /
            METERS_PER_SCENE_UNIT,
         pos.z + -(computeElectricFieldAtPoint pos sources).z /
            fieldMagnitude (computeElectricFieldAtPoint pos sources) *
            (fieldMagnitude (computeElectricFieldAtPoint pos sources) * 1e-6) /
            METERS_PER_SCENE_UNIT)

/-- The function `findEquilibriumPoint` of `field.ts`. Local variables of
the source (`d`, `q1Mag`, `areLikeCharges`, `u`, `r1`, `x`, `weakMag`,
`strongMag`, `eqMeters`) are inlined; the structure of guards and branches
is otherwise identical: `null` for any source count other than two or any
mode other than electric, `null` when the inter-source distance in meters
is below the clamp floor, the between-the-sources closed form for
like-signed pairs, the outside closed form for other pairs with `null`
when the magnitude square roots coincide, followed by the refinement
loop. -/
def findEquilibriumPoint (sources : List FieldSource) (mode : FieldMode) : Option Vec3 :=
  match sources, mode with
  | [q1, q2], FieldMode.electric =>
    if distance (sceneToMeters q1.position) (sceneToMeters q2.position) <
        MIN_DISTANCE * METERS_PER_SCENE_UNIT then none
    else if 0 < Real.sign q1.value * Real.sign q2.value then
      if Real.sqrt |q1.value| + Real.sqrt |q2.value| = 0 then none
      else
        some (equilibriumRefine sources 10 (metersToScene
          ((sceneToMeters q1.position).x +
              (unitVector (sceneToMeters q1.position) (sceneToMeters q2.position)).x *
              (Real.sqrt |q1.value| / (Real.sqrt |q1.value| + Real.sqrt |q2.value|) *
                distance (sceneToMeters q1.position) (sceneToMeters q2.position)),
           (sceneToMeters q1.position).y +
              (unitVector (sceneToMeters q1.position) (sceneToMeters q2.position)).y *
              (Real.sqrt |q1.value| / (Real.sqrt |q1.value| + Real.sqrt |q2.value|) *
                distance (sceneToMeters q1.position) (sceneToMeters q2.position)),
           (sceneToMeters q1.position).z +
              (unitVector (sceneToMeters q1.position) (sceneToMeters q2.position)).z *
              (Real.sqrt |q1.value| / (Real.sqrt |q1.value| + Real.sqrt |q2.value|) *
                distance (sceneToMeters q1.position) (sceneToMeters q2.position)))))
    else
      if Real.sqrt (if |q1.value| < |q2.value| then |q2.value| else |q1.value|) -
          Real.sqrt (if |q1.value| < |q2.value| then |q1.value| else |q2.value|) ≤ 0 then none
      else if |q1.value| < |q2.value| then
        some (equilibriumRefine sources 10 (metersToScene
          ((sceneToMeters q1.position).x -
              (unitVector (sceneToMeters q1.position) (sceneToMeters q2.position)).x *
              (Real.sqrt (if |q1.value| < |q2.value| then |q1.value| else |q2.value|) *
                  distance (sceneToMeters q1.position) (sceneToMeters q2.position) /
                (Real.sqrt (if |q1.value| < |q2.value| then |q2.value| else |q1.value|) -
                  Real.sqrt (if |q1.value| < |q2.value| then |q1.value| else |q2.value|))),
           (sceneToMeters q1.position).y -
              (unitVector (sceneToMeters q1.position) (sceneToMeters q2.position)).y *
              (Real.sqrt (if |q1.value| < |q2.value| then |q1.value| else |q2.value|) *
                  distance (sceneToMeters q1.position) (sceneToMeters q2.position) /
                (Real.sqrt (if |q1.value| < |q2.value| then |q2.value| else |q1.value|) -
                  Real.sqrt (if |q1.value| < |q2.value| then |q1.value| else |q2.value|))),
           (sceneToMeters q1.position).z -
              (unitVector (sceneToMeters q1.position) (sceneToMeters q2.position)).z *
              (Real.sqrt (if |q1.value| < |q2.value| then |q1.value| else |q2.value|) *
                  distance (sceneToMeters q1.position) (sceneToMeters q2.position) /
                (Real.sqrt (if |q1.value| < |q2.value| then |q2.value| else |q1.value|) -
                  Real.sqrt (if |q1.value| < |q2.value| then |q1.value| else |q2.value|))))))
      else
        some (equilibriumRefine sources 10 (metersToScene
          ((sceneToMeters q2.position).x +
              (unitVector (sceneToMeters q1.position) (sceneToMeters q2.position)).x *
              (Real.sqrt (if |q1.value| < |q2.value| then |q1.value| else |q2.value|) *
                  distance (sceneToMeters q1.position) (sceneToMeters q2.position) /
                (Real.sqrt (if |q1.value| < |q2.value| then |q2.value| else |q1.value|) -
                  Real.sqrt (if |q1.value| < |q2.value| then |q1.value| else |q2.value|))),
           (sceneToMeters q2.position).y +
              (unitVector (sceneToMeters q1.position) (sceneToMeters q2.position)).y *
              (Real.sqrt (if |q1.value| < |q2.value| then |q1.value| else |q2.value|) *
                  distance (sceneToMeters q1.position) (sceneToMeters q2.position) /
                (Real.sqrt (if |q1.value| < |q2.value| then |q2.value| else |q1.value|) -
                  Real.sqrt (if |q1.value| < |q2.value| then |q1.value| else |q2.value|))),
           (sceneToMeters q2.position).z +
              (unitVector (sceneToMeters q1.position) (sceneToMeters q2.position)).z *
              (Real.sqrt (if |q1.value| < |q2.value| then |q1.value| else |q2.value|) *
                  distance (sceneToMeters q1.position) (sceneToMeters q2.position) /
                (Real.sqrt (if |q1.value| < |q2.value| then |q2.value| else |q1.value|) -
                  Real.sqrt (if |q1.value| < |q2.value| then |q1.value| else |q2.value|))))))
  | _, _ => none

lemma equilibriumRefine_of_small (sources : List FieldSource) (pos : Vec3)
    (h : fieldMagnitude (computeElectricFieldAtPoint pos sources) < 1e-15) :
    ∀ n, equilibriumRefine sources n pos = pos := by
  intro n
  cases n with
  | zero => rfl
  | succ n =>
    simp only [equilibriumRefine]
    rw [if_pos h]

lemma findEquilibrium_like (q1 q2 : FieldSource)
    (h1 : ¬ distance (sceneToMeters q1.position) (sceneToMeters q2.position) <
        MIN_DISTANCE * METERS_PER_SCENE_UNIT)
    (h2 : 0 < Real.sign q1.value * Real.sign q2.value)
    (h3 : ¬ Real.sqrt |q1.value| + Real.sqrt |q2.value| = 0) :
    findEquilibriumPoint [q1, q2] FieldMode.electric =
      some (equilibriumRefine [q1, q2] 10 (metersToScene
        ((sceneToMeters q1.position).x +
            (unitVector (sceneToMeters q1.position) (sceneToMeters q2.position)).x *
            (Real.sqrt |q1.value| / (Real.sqrt |q1.value| + Real.sqrt |q2.value|) *
              distance (sceneToMeters q1.position) (sceneToMeters q2.position)),
         (sceneToMeters q1.position).y +
            (unitVector (sceneToMeters q1.position) (sceneToMeters q2.position)).y *
            (Real.sqrt |q1.value| / (Real.sqrt |q1.value| + Real.sqrt |q2.value|) *
              distance (sceneToMeters q1.position) (sceneToMeters q2.position)),
         (sceneToMeters q1.position).z +
            (unitVector (sceneToMeters q1.position) (sceneToMeters q2.position)).z *
            (Real.sqrt |q1.value| / (Real.sqrt |q1.value| + Real.sqrt |q2.value|) *
              distance (sceneToMeters q1.position) (sceneToMeters q2.position))))) := by
  simp only [findEquilibriumPoint]
  rw [if_neg h1, if_pos h2, if_neg h3]

/-- C3 (amended). The equilibrium solver returns none exactly in the
degenerate cases: always for a source count other than two or a mode other
than electric; and for a two-source electric pair exactly when the
inter-source distance in meters is below the clamp floor, or the pair is
not strictly like-signed (sign product not positive, which includes zero
values) while the two magnitudes are equal. In every other two-source
electric configuration it returns a position. -/
theorem equilibrium_none_iff :
    (∀ (sources : List FieldSource) (mode : FieldMode),
      sources.length ≠ 2 ∨ mode ≠ FieldMode.electric →
        findEquilibriumPoint sources mode = none) ∧
    (∀ q1 q2 : FieldSource,
      findEquilibriumPoint [q1, q2] FieldMode.electric = none ↔
        (distance (sceneToMeters q1.position) (sceneToMeters q2.position) <
            MIN_DISTANCE * METERS_PER_SCENE_UNIT ∨
          (¬ 0 < Real.sign q1.value * Real.sign q2.value ∧ |q1.value| = |q2.value|))) := by
  constructor
  · intro sources mode h
    rcases sources with _ | ⟨q1, rest⟩
    · cases mode <;> rfl
    rcases rest with _ | ⟨q2, rest2⟩
    · cases mode <;> rfl
    rcases rest2 with _ | ⟨q3, rest3⟩
    · cases mode with
      | electric =>
        exfalso
        rcases h with h | h
        · simp at h
        · exact h rfl
      | gravity => rfl
    · cases mode <;> rfl
  · intro q1 q2
    simp only [findEquilibriumPoint]
    by_cases hd : distance (sceneToMeters q1.position) (sceneToMeters q2.position) <
        MIN_DISTANCE * METERS_PER_SCENE_UNIT
    · rw [if_pos hd]
      exact iff_of_true rfl (Or.inl hd)
    · rw [if_neg hd]
      by_cases hlike : 0 < Real.sign q1.value * Real.sign q2.value
      · rw [if_pos hlike]
        have hq1 : q1.value ≠ 0 := by
          intro h0
          rw [h0, Real.sign_zero, zero_mul] at hlike
          exact lt_irrefl 0 hlike
        have hs1 : 0 < Real.sqrt |q1.value| := Real.sqrt_pos.2 (abs_pos.2 hq1)
        have hs2 : 0 ≤ Real.sqrt |q2.value| := Real.sqrt_nonneg _
        rw [if_neg (by intro h0; nlinarith :
          ¬ Real.sqrt |q1.value| + Real.sqrt |q2.value| = 0)]
        refine iff_of_false (by simp) ?_
        rintro (h | ⟨hnl, _⟩)
        · exact hd h
        · exact hnl hlike
      · rw [if_neg hlike]
        by_cases hlt : |q1.value| < |q2.value|
        · simp only [if_pos hlt]
          have hc : ¬ (Real.sqrt |q2.value| - Real.sqrt |q1.value| ≤ 0) := by
            have := Real.sqrt_lt_sqrt (abs_nonneg q1.value) hlt
            linarith
          rw [if_neg hc]
          refine iff_of_false (by simp) ?_
          rintro (h | ⟨_, heq⟩)
          · exact hd h
          · rw [heq] at hlt
            exact lt_irrefl _ hlt
        · simp only [if_neg hlt]
          have hge : |q2.value| ≤ |q1.value| := not_lt.1 hlt
          by_cases heq : |q1.value| = |q2.value|
          · have hc : Real.sqrt |q1.value| - Real.sqrt |q2.value| ≤ 0 := by
              rw [heq]
              simp
            rw [if_pos hc]
            exact iff_of_true rfl (Or.inr ⟨hlike, heq⟩)
          · have hltq : |q2.value| < |q1.value| :=
              lt_of_le_of_ne hge (fun h => heq h.symm)
            have hc : ¬ (Real.sqrt |q1.value| - Real.sqrt |q2.value| ≤ 0) := by
              have := Real.sqrt_lt_sqrt (abs_nonneg q2.value) hltq
              linarith
            rw [if_neg hc]
            refine iff_of_false (by simp) ?_
            rintro (h | ⟨_, h2⟩)
            · exact hd h
            · exact heq h2

/-- C3 witness: an instance of the unsupported-configuration clause of the
amended theorem at a concrete input (the empty source list). -/
theorem equilibrium_none_witness :
    findEquilibriumPoint [] FieldMode.electric = none :=
  equilibrium_none_iff.1 [] FieldMode.electric (Or.inl (by simp))

/-- C3 counterexample to the claim as stated: two zero-valued sources two
scene units apart in electric mode. The source count is two, the mode is
electric, the inter-source distance is above the floor, and the pair is
not opposite-signed (both signs are zero), yet the solver returns none
rather than a position, because the zero pair falls into the
opposite-charge branch with equal magnitudes. -/
theorem equilibrium_zero_pair_counterexample :
    findEquilibriumPoint [⟨((0:ℝ), 0, 0), 0⟩, ⟨((2:ℝ), 0, 0), 0⟩] FieldMode.electric = none ∧
    ¬ distance (sceneToMeters ((0:ℝ), 0, 0)) (sceneToMeters ((2:ℝ), 0, 0)) <
        MIN_DISTANCE * METERS_PER_SCENE_UNIT ∧
    Real.sign (0:ℝ) * Real.sign (0:ℝ) = 0 := by
  have hp1 : sceneToMeters ((0:ℝ), 0, 0) = ((0:ℝ), 0, 0) := by
    unfold sceneToMeters METERS_PER_SCENE_UNIT
    simp only [Vec3.x_mk, Vec3.y_mk, Vec3.z_mk, zero_mul]
  have hp2 : sceneToMeters ((2:ℝ), 0, 0) = ((0.2:ℝ), 0, 0) := by
    unfold sceneToMeters METERS_PER_SCENE_UNIT
    simp only [Vec3.x_mk, Vec3.y_mk, Vec3.z_mk, zero_mul]
    norm_num
  have hd : distance (sceneToMeters ((0:ℝ), 0, 0)) (sceneToMeters ((2:ℝ), 0, 0)) = 0.2 := by
    rw [hp1, hp2, distance_x_axis]
    norm_num
  have hfar : ¬ distance (sceneToMeters ((0:ℝ), 0, 0)) (sceneToMeters ((2:ℝ), 0, 0)) <
      MIN_DISTANCE * METERS_PER_SCENE_UNIT := by
    rw [hd]
    norm_num [MIN_DISTANCE, METERS_PER_SCENE_UNIT]
  refine ⟨?_, hfar, by rw [Real.sign_zero, mul_zero]⟩
  simp only [findEquilibriumPoint]
  rw [if_neg hfar]
  rw [if_neg (by rw [Real.sign_zero, mul_zero]; exact lt_irrefl 0)]
  rw [if_pos]
  simp

/-- C4. Concrete evaluation exhibiting the unit-mismatch bug in the
like-charge equilibrium path: two equal positive charges of 1e-30 C at
(-0.25, 0, 0) and (0.25, 0, 0) scene units, half a scene unit apart (above
the 0.1 scene-unit floor). The closed form would place the equilibrium at
the origin, but `unitVector` clamps its denominator with the scene-unit
constant 0.1 against a meter-valued distance of 0.05, shrinking the offset
by half, and the refinement loop exits immediately because the residual
field is below tolerance; the solver returns (-0.125, 0, 0) instead of a
point within tolerance of the origin. -/
theorem equilibrium_like_clamp_bug_eval :
    findEquilibriumPoint
        [⟨((-0.25:ℝ), 0, 0), (1e-30:ℝ)⟩, ⟨((0.25:ℝ), 0, 0), (1e-30:ℝ)⟩]
        FieldMode.electric = some ((-0.125:ℝ), 0, 0) := by
  have hp1 : sceneToMeters ((-0.25:ℝ), 0, 0) = ((-0.025:ℝ), 0, 0) := by
    unfold sceneToMeters METERS_PER_SCENE_UNIT
    simp only [Vec3.x_mk, Vec3.y_mk, Vec3.z_mk, zero_mul]
    norm_num
  have hp2 : sceneToMeters ((0.25:ℝ), 0, 0) = ((0.025:ℝ), 0, 0) := by
    unfold sceneToMeters METERS_PER_SCENE_UNIT
    simp only [Vec3.x_mk, Vec3.y_mk, Vec3.z_mk, zero_mul]
    norm_num
  have hd : distance (((-0.025:ℝ), 0, 0) : Vec3) (((0.025:ℝ), 0, 0) : Vec3) = 0.05 := by
    rw [distance_x_axis]
    norm_num
  have hu : unitVector (((-0.025:ℝ), 0, 0) : Vec3) (((0.025:ℝ), 0, 0) : Vec3) =
      ((0.5:ℝ), 0, 0) := by
    unfold unitVector
    rw [hd]
    unfold MIN_DISTANCE
    rw [max_eq_right (by norm_num : (0.05:ℝ) ≤ 0.1)]
    refine Vec3.ext_xyz ?_ ?_ ?_ <;> simp only [Vec3.x_mk, Vec3.y_mk, Vec3.z_mk] <;> norm_num
  have hs : 0 < Real.sqrt |(1e-30:ℝ)| := Real.sqrt_pos.2 (by norm_num)
  have hsign : 0 < Real.sign (1e-30:ℝ) * Real.sign (1e-30:ℝ) := by
    rw [Real.sign_of_pos (by norm_num : (0:ℝ) < 1e-30)]
    norm_num
  have hsum : ¬ Real.sqrt |(1e-30:ℝ)| + Real.sqrt |(1e-30:ℝ)| = 0 := by
    intro h0
    nlinarith
  have hratio : Real.sqrt |(1e-30:ℝ)| / (Real.sqrt |(1e-30:ℝ)| + Real.sqrt |(1e-30:ℝ)|) *
      (0.05:ℝ) = 0.025 := by
    rw [show Real.sqrt |(1e-30:ℝ)| + Real.sqrt |(1e-30:ℝ)| = Real.sqrt |(1e-30:ℝ)| * 2 by ring,
      ← div_div, div_self (ne_of_gt hs)]
    norm_num
  have hq : sceneToMeters ((-0.125:ℝ), 0, 0) = ((-0.0125:ℝ), 0, 0) := by
    unfold sceneToMeters METERS_PER_SCENE_UNIT
    simp only [Vec3.x_mk, Vec3.y_mk, Vec3.z_mk, zero_mul]
    norm_num
  have hc1 : elecContrib ((-0.0125:ℝ), 0, 0) ⟨((-0.25:ℝ), 0, 0), (1e-30:ℝ)⟩ =
      ((COULOMB_CONSTANT * 1e-30 * 800 : ℝ), 0, 0) := by
    rw [elecContrib_x_axis]
    refine Vec3.ext_xyz ?_ rfl rfl
    simp only [Vec3.x_mk]
    unfold MIN_DISTANCE METERS_PER_SCENE_UNIT
    rw [show (-0.0125:ℝ) - -0.25 * 0.1 = 0.0125 by norm_num,
      abs_of_pos (by norm_num : (0:ℝ) < 0.0125),
      max_eq_left (by norm_num : (0.1:ℝ) * 0.1 ≤ 0.0125),
      max_eq_right (by norm_num : (0.0125:ℝ) ≤ 0.1)]
    ring_nf
  have hc2 : elecContrib ((-0.0125:ℝ), 0, 0) ⟨((0.25:ℝ), 0, 0), (1e-30:ℝ)⟩ =
      ((-(COULOMB_CONSTANT * 1e-30 * (800 / 3)) : ℝ), 0, 0) := by
    rw [elecContrib_x_axis]
    refine Vec3.ext_xyz ?_ rfl rfl
    simp only [Vec3.x_mk]
    unfold MIN_DISTANCE METERS_PER_SCENE_UNIT
    rw [show (-0.0125:ℝ) - 0.25 * 0.1 = -0.0375 by norm_num,
      abs_of_neg (by norm_num : (-0.0375:ℝ) < 0),
      show -(-0.0375:ℝ) = 0.0375 by norm_num,
      max_eq_left (by norm_num : (0.1:ℝ) * 0.1 ≤ 0.0375),
      max_eq_right (by norm_num : (0.0375:ℝ) ≤ 0.1)]
    ring_nf
  have hEeval : computeElectricFieldAtPoint ((-0.125:ℝ), 0, 0)
      [⟨((-0.25:ℝ), 0, 0), (1e-30:ℝ)⟩, ⟨((0.25:ℝ), 0, 0), (1e-30:ℝ)⟩] =
      ((COULOMB_CONSTANT * 1e-30 * (1600 / 3) : ℝ), 0, 0) := by
    unfold computeElectricFieldAtPoint
    simp only [List.foldl_cons, List.foldl_nil]
    rw [hq, hc1, hc2]
    refine Vec3.ext_xyz ?_ ?_ ?_ <;>
      simp only [Vec3.add_x, Vec3.add_y, Vec3.add_z, Vec3.x_mk, Vec3.y_mk, Vec3.z_mk]
    · ring
    · norm_num
    · norm_num
  have hsmall : fieldMagnitude (computeElectricFieldAtPoint ((-0.125:ℝ), 0, 0)
      [⟨((-0.25:ℝ), 0, 0), (1e-30:ℝ)⟩, ⟨((0.25:ℝ), 0, 0), (1e-30:ℝ)⟩]) < 1e-15 := by
    rw [hEeval, fieldMagnitude_x_axis,
      abs_of_pos (by norm_num [COULOMB_CONSTANT] :
        (0:ℝ) < COULOMB_CONSTANT * 1e-30 * (1600 / 3))]
    norm_num [COULOMB_CONSTANT]
  have hrefine := equilibriumRefine_of_small _ _ hsmall 10
  rw [findEquilibrium_like _ _ ?_ ?_ ?_]
  · rw [hp1, hp2, hu, hd]
    simp only [Vec3.x_mk, Vec3.y_mk, Vec3.z_mk]
    rw [hratio]
    rw [show ((-0.025:ℝ) + 0.5 * 0.025, (0:ℝ) + 0 * (0.025:ℝ), (0:ℝ) + 0 * (0.025:ℝ)) =
        (((-0.0125:ℝ), 0, 0) : Vec3) by norm_num]
    rw [show metersToScene ((-0.0125:ℝ), 0, 0) = ((-0.125:ℝ), 0, 0) by
      unfold metersToScene METERS_PER_SCENE_UNIT
      simp only [Vec3.x_mk, Vec3.y_mk, Vec3.z_mk, zero_div]
      norm_num]
    rw [hrefine]
  · rw [hp1, hp2, hd]
    norm_num [MIN_DISTANCE, METERS_PER_SCENE_UNIT]
  · exact hsign
  · exact hsum

/-- C1. Superposition over source lists: for every point and any two source
lists `A` and `B`, the electric field of `A ++ B` is the componentwise sum
of the fields of `A` and of `B`, and likewise for the gravitational field.
Exact over the real-arithmetic embedding. -/
theorem superposition_append (p : Vec3) (A B : List FieldSource) :
    computeElectricFieldAtPoint p (A ++ B) =
      computeElectricFieldAtPoint p A + computeElectricFieldAtPoint p B ∧
    computeGravitationalFieldAtPoint p (A ++ B) =
      computeGravitationalFieldAtPoint p A + computeGravitationalFieldAtPoint p B := by
  constructor
  · unfold computeElectricFieldAtPoint
    rw [List.foldl_append, foldl_add_shift]
  · unfold computeGravitationalFieldAtPoint
    rw [List.foldl_append, foldl_add_shift]

/-! Field line tracing, from `src/components/FieldFlow.tsx`. -/

/-- Seed sphere radius constant of `FieldFlow.tsx`. -/
def SEED_SPHERE_RADIUS : ℝ := 6.0

/-- Maximum integration steps per direction, `FieldFlow.tsx`. -/
def MAX_STEPS_PER_DIRECTION : ℕ := 600

/-- Integration step size in scene units, `FieldFlow.tsx`. -/
def STEP_SIZE : ℝ := 0.05

/-- Minimal field magnitude below which tracing stops, `FieldFlow.tsx`. -/
def MIN_FIELD_MAGNITUDE : ℝ := 1e-15

/-- Exclusion radius around sources, `FieldFlow.tsx`. -/
def MIN_DISTANCE_FROM_SOURCE : ℝ := 0.15

/-- Bounding box half-extent for tracing, `FieldFlow.tsx`. -/
def TRACE_BOUNDS : ℝ := 20.0

/-- The `normalize` helper of `FieldFlow.tsx` (renamed to avoid the
Mathlib name): zero vector when the magnitude is below 1e-10, otherwise
the vector divided by its magnitude. -/
def normalizeVec (v : Vec3) : Vec3 :=
  if Real.sqrt (v.x * v.x + v.y * v.y + v.z * v.z) < 1e-10 then ((0:ℝ), 0, 0)
  else (v.x / Real.sqrt (v.x * v.x + v.y * v.y + v.z * v.z),
        v.y / Real.sqrt (v.x * v.x + v.y * v.y + v.z * v.z),
        v.z / Real.sqrt (v.x * v.x + v.y * v.y + v.z * v.z))

/-- The `isOutsideBounds` helper of `FieldFlow.tsx`. -/
def isOutsideBounds (pos : Vec3) : Prop :=
  TRACE_BOUNDS < |pos.x| ∨ TRACE_BOUNDS < |pos.y| ∨ TRACE_BOUNDS < |pos.z|

instance (pos : Vec3) : Decidable (isOutsideBounds pos) := by
  unfold isOutsideBounds
  infer_instance

/-- The `isTooCloseToSource` helper of `FieldFlow.tsx` (the same test is
inlined in `generateSphereShellSeeds`). -/
def isTooCloseToSource (pos : Vec3) (sources : List FieldSource) : Prop :=
  ∃ s ∈ sources, distance pos s.position < MIN_DISTANCE_FROM_SOURCE

instance (pos : Vec3) (sources : List FieldSource) :
    Decidable (isTooCloseToSource pos sources) := by
  unfold isTooCloseToSource
  infer_instance

/-- Mode dispatch inside `traceInDirection` of `FieldFlow.tsx`. -/
def fieldAtForMode (mode : FieldMode) (pos : Vec3) (sources : List FieldSource) : Vec3 :=
  match mode with
  | FieldMode.electric => computeElectricFieldAtPoint pos sources
  | FieldMode.gravity => computeGravitationalFieldAtPoint pos sources

/-- Loop body of `traceInDirection` of `FieldFlow.tsx`, with the loop
counter as explicit fuel. Each iteration stops on bounds exit, source
proximity or vanished field; otherwise it records the current position
(before the zero-direction check, exactly as the source pushes the point
before breaking) and advances by the normalized field direction times the
step size and direction sign. -/
def traceLoop (sources : List FieldSource) (mode : FieldMode) (direction : ℝ) :
    ℕ → Vec3 → List Vec3
  | 0, _ => []
  | n + 1, pos =>
    if isOutsideBounds pos then []
    else if isTooCloseToSource pos sources then []
    else if fieldMagnitude (fieldAtForMode mode pos sources) < MIN_FIELD_MAGNITUDE then []
    else
      pos ::
        (if (normalizeVec (fieldAtForMode mode pos sources)).x = 0 ∧
            (normalizeVec (fieldAtForMode mode pos sources)).y = 0 ∧
            (normalizeVec (fieldAtForMode mode pos sources)).z = 0 then []
         else
           traceLoop sources mode direction n
             (pos.x + (normalizeVec (fieldAtForMode mode pos sources)).x * STEP_SIZE * direction,
              pos.y + (normalizeVec (fieldAtForMode mode pos sources)).y * STEP_SIZE * direction,
              pos.z + (normalizeVec (fieldAtForMode mode pos sources)).z * STEP_SIZE * direction))

/-- The function `traceInDirection` of `FieldFlow.tsx`: the loop above run
for at most `MAX_STEPS_PER_DIRECTION` iterations. -/
def traceInDirection (startPos : Vec3) (sources : List FieldSource) (mode : FieldMode)
    (direction : ℝ) : List Vec3 :=
  traceLoop sources mode direction MAX_STEPS_PER_DIRECTION startPos

/-- The function `traceFieldLine` of `FieldFlow.tsx`: empty when the seed
is inside an exclusion radius, otherwise the backward trace reversed, the
seed, then the forward trace. -/
def traceFieldLine (seed : Vec3) (sources : List FieldSource) (mode : FieldMode) :
    List Vec3 :=
  if isTooCloseToSource seed sources then []
  else
    (traceInDirection seed sources mode (-1)).reverse ++
      seed :: traceInDirection seed sources mode 1

/-- The seed generator `generateSphereShellSeeds` of `FieldFlow.tsx`:
Fibonacci-sphere point for index `i` of `numSeeds`. -/
def fibonacciSeed (numSeeds i : ℕ) : Vec3 :=
  let y : ℝ := 1 - (i : ℝ) / ((numSeeds : ℝ) - 1) * 2
  let radius : ℝ := Real.sqrt (1 - y * y)
  let theta : ℝ := Real.pi * (3 - Real.sqrt 5) * (i : ℝ)
  (Real.cos theta * radius * SEED_SPHERE_RADIUS,
   y * SEED_SPHERE_RADIUS,
   Real.sin theta * radius * SEED_SPHERE_RADIUS)

/-- The function `generateSphereShellSeeds` of `FieldFlow.tsx`: one
candidate point per index, keeping those not too close to a source. -/
def generateSphereShellSeeds (sources : List FieldSource) (numSeeds : ℕ) : List Vec3 :=
  ((List.range numSeeds).map (fibonacciSeed numSeeds)).filter
    (fun seed => decide (¬ isTooCloseToSource seed sources))

/-- The field-line pipeline of the `FieldFlow` component: trace a line
from every seed and keep only lines with at least 20 points. -/
def fieldFlowLines (sources : List FieldSource) (mode : FieldMode) (density : ℕ) :
    List (List Vec3) :=
  ((generateSphereShellSeeds sources density).map
      (fun seed => traceFieldLine seed sources mode)).filter
    (fun pts => decide (20 ≤ pts.length))

lemma traceLoop_length_le (sources : List FieldSource) (mode : FieldMode) (direction : ℝ) :
    ∀ (n : ℕ) (pos : Vec3), (traceLoop sources mode direction n pos).length ≤ n := by
  intro n
  induction n with
  | zero => intro pos; simp [traceLoop]
  | succ n ih =>
    intro pos
    simp only [traceLoop]
    split_ifs
    · simp
    · simp
    · simp
    · simp
    · simp only [List.length_cons]
      exact Nat.succ_le_succ (ih _)

/-- C6. Termination and step bounds of the tracer: for every seed, source
list, mode and direction sign, `traceInDirection` (modelled with the loop
counter of the source as fuel, so it terminates by construction) returns
at most `MAX_STEPS_PER_DIRECTION = 600` positions, and every assembled
line of `traceFieldLine` has at most `2 * 600 + 1` points. -/
theorem trace_length_bound (seed : Vec3) (sources : List FieldSource) (mode : FieldMode)
    (direction : ℝ) :
    (traceInDirection seed sources mode direction).length ≤ 600 ∧
    (traceFieldLine seed sources mode).length ≤ 2 * 600 + 1 := by
  constructor
  · exact traceLoop_length_le sources mode direction 600 seed
  · unfold traceFieldLine
    split_ifs
    · simp
    · have h1 := traceLoop_length_le sources mode (-1) 600 seed
      have h2 := traceLoop_length_le sources mode 1 600 seed
      unfold traceInDirection MAX_STEPS_PER_DIRECTION
      simp only [List.length_append, List.length_reverse, List.length_cons]
      omega

/-- C7. Assembly of a field line: the result is empty when the seed lies
within the exclusion radius of some source, and otherwise is exactly the
reversed backward trace, the seed, then the forward trace; and every line
kept by the pipeline of the `FieldFlow` component has at least the minimum
point count 20. -/
theorem trace_assembly (seed : Vec3) (sources : List FieldSource) (mode : FieldMode) :
    (isTooCloseToSource seed sources → traceFieldLine seed sources mode = []) ∧
    (¬ isTooCloseToSource seed sources →
      traceFieldLine seed sources mode =
        (traceInDirection seed sources mode (-1)).reverse ++
          seed :: traceInDirection seed sources mode 1) ∧
    (∀ (density : ℕ) (l : List Vec3), l ∈ fieldFlowLines sources mode density →
      20 ≤ l.length) := by
  refine ⟨?_, ?_, ?_⟩
  · intro h
    unfold traceFieldLine
    rw [if_pos h]
  · intro h
    unfold traceFieldLine
    rw [if_neg h]
  · intro density l hl
    unfold fieldFlowLines at hl
    exact of_decide_eq_true (List.mem_filter.1 hl).2

/-- C7 witness: a seed coinciding with a source position is inside the
exclusion radius, so the assembled line is empty. -/
theorem trace_assembly_witness :
    traceFieldLine ((0:ℝ), 0, 0) [⟨((0:ℝ), 0, 0), 1⟩] FieldMode.electric = [] := by
  refine (trace_assembly ((0:ℝ), 0, 0) [⟨((0:ℝ), 0, 0), 1⟩] FieldMode.electric).1 ?_
  refine ⟨⟨((0:ℝ), 0, 0), 1⟩, List.mem_cons_self _ _, ?_⟩
  have : distance (((0:ℝ), 0, 0) : Vec3) (((0:ℝ), 0, 0) : Vec3) = 0 := by
    unfold distance
    simp only [Vec3.x_mk, Vec3.y_mk, Vec3.z_mk, sub_self, mul_zero, zero_mul, add_zero]
    exact Real.sqrt_zero
  rw [this]
  norm_num [MIN_DISTANCE_FROM_SOURCE]

lemma fibonacciSeed_on_sphere (n i : ℕ) (h2 : 2 ≤ n) (hi : i < n) :
    (fibonacciSeed n i).x * (fibonacciSeed n i).x +
      (fibonacciSeed n i).y * (fibonacciSeed n i).y +
      (fibonacciSeed n i).z * (fibonacciSeed n i).z =
    SEED_SPHERE_RADIUS * SEED_SPHERE_RADIUS := by
  simp only [fibonacciSeed, Vec3.x_mk, Vec3.y_mk, Vec3.z_mk]
  set y : ℝ := 1 - (i : ℝ) / ((n : ℝ) - 1) * 2 with hy
  set theta : ℝ := Real.pi * (3 - Real.sqrt 5) * (i : ℝ) with htheta
  have hden : (1 : ℝ) ≤ (n : ℝ) - 1 := by
    have : (2 : ℝ) ≤ (n : ℝ) := by exact_mod_cast h2
    linarith
  have hratio0 : 0 ≤ (i : ℝ) / ((n : ℝ) - 1) :=
    div_nonneg (Nat.cast_nonneg i) (by linarith)
  have hratio1 : (i : ℝ) / ((n : ℝ) - 1) ≤ 1 := by
    rw [div_le_one (by linarith)]
    have : (i : ℝ) ≤ (n : ℝ) - 1 := by
      have : (i : ℝ) + 1 ≤ (n : ℝ) := by exact_mod_cast hi
      linarith
    exact this
  have hy2 : y * y ≤ 1 := by
    rw [hy]
    nlinarith
  have hrad : Real.sqrt (1 - y * y) * Real.sqrt (1 - y * y) = 1 - y * y :=
    Real.mul_self_sqrt (by linarith)
  have hsc : Real.sin theta ^ 2 + Real.cos theta ^ 2 = 1 := Real.sin_sq_add_cos_sq theta
  linear_combination
    (SEED_SPHERE_RADIUS * SEED_SPHERE_RADIUS *
      (Real.sqrt (1 - y * y) * Real.sqrt (1 - y * y))) * hsc +
    (SEED_SPHERE_RADIUS * SEED_SPHERE_RADIUS) * hrad

/-- C10. Sphere-shell seed generation: for at least two requested seeds,
every returned position lies exactly on the sphere of radius
`SEED_SPHERE_RADIUS = 6` about the origin, is at distance at least
`MIN_DISTANCE_FROM_SOURCE = 0.15` from every source position, and at most
`numSeeds` positions are returned. (The `2 ≤ numSeeds` hypothesis mirrors
the generator division by `numSeeds - 1`, which in the floating-point
source produces NaN coordinates for a single seed.) -/
theorem sphere_seeds_spec (sources : List FieldSource) (n : ℕ) (hn : 2 ≤ n) :
    (∀ p ∈ generateSphereShellSeeds sources n,
      p.x * p.x + p.y * p.y + p.z * p.z = SEED_SPHERE_RADIUS * SEED_SPHERE_RADIUS ∧
      ∀ s ∈ sources, MIN_DISTANCE_FROM_SOURCE ≤ distance p s.position) ∧
    (generateSphereShellSeeds sources n).length ≤ n := by
  constructor
  · intro p hp
    unfold generateSphereShellSeeds at hp
    obtain ⟨hmem, hpred⟩ := List.mem_filter.1 hp
    obtain ⟨i, hi, hip⟩ := List.mem_map.1 hmem
    have hfar : ¬ isTooCloseToSource p sources := of_decide_eq_true hpred
    constructor
    · rw [← hip]
      exact fibonacciSeed_on_sphere n i hn (List.mem_range.1 hi)
    · intro s hs
      by_contra hclose
      exact hfar ⟨s, hs, lt_of_not_le hclose⟩
  · calc (generateSphereShellSeeds sources n).length
        ≤ ((List.range n).map (fibonacciSeed n)).length := List.length_filter_le _ _
      _ = n := by rw [List.length_map, List.length_range]

/-- C10 witness: an instance of the seed-count bound at two requested
seeds and no sources. -/
theorem sphere_seeds_witness : (generateSphereShellSeeds [] 2).length ≤ 2 :=
  (sphere_seeds_spec [] 2 (by norm_num)).2

/-! Vector field sampling, from `src/components/FieldVectors.tsx`. -/

/-- Arrow cap constant of `FieldVectors.tsx`. -/
def MAX_ARROWS : ℕ := 500

/-- Weak-field display threshold of `FieldVectors.tsx`. -/
def MIN_FIELD_THRESHOLD : ℝ := 1e-10

/-- One axis of the `generateGridPoints` loop of `FieldVectors.tsx`: the
values visited by `for (x = -gridSize; x <= gridSize; x += 2)`, namely the
arithmetic progression `-gridSize + 2 * i` for as long as it stays at most
`gridSize` (the loop body runs `floor gridSize + 1` times for nonnegative
`gridSize` and never for negative `gridSize`); the grid step constant is
2 on every axis. -/
def gridAxisPoints (g : ℝ) : List ℝ :=
  if 0 ≤ g then (List.range (Int.toNat ⌊g⌋ + 1)).map (fun i : ℕ => -g + 2 * (i : ℝ)) else []

/-- The triple-nested lattice of `generateGridPoints` of `FieldVectors.tsx`
before thinning: x outermost, then y, then z. -/
def gridLatticePoints (g : ℝ) : List Vec3 :=
  (gridAxisPoints g).flatMap (fun x =>
    (gridAxisPoints g).flatMap (fun y =>
      (gridAxisPoints g).map (fun z => (x, y, z))))

/-- The function `generateGridPoints` of `FieldVectors.tsx`: the full
lattice, thinned by keeping the indices divisible by
`ceil (count / MAX_ARROWS)` whenever the count exceeds `MAX_ARROWS`. -/
def generateGridPoints (g : ℝ) : List Vec3 :=
  if MAX_ARROWS < (gridLatticePoints g).length then
    (((gridLatticePoints g).enum).filter
        (fun p => p.1 % (((gridLatticePoints g).length + MAX_ARROWS - 1) / MAX_ARROWS) == 0)).map
      Prod.snd
  else gridLatticePoints g

lemma mem_gridAxisPoints_iff (g : ℝ) (hg : 0 ≤ g) (x : ℝ) :
    x ∈ gridAxisPoints g ↔ ∃ i : ℕ, x = -g + 2 * (i : ℝ) ∧ x ≤ g := by
  unfold gridAxisPoints
  rw [if_pos hg]
  have hfl : (0:ℤ) ≤ ⌊g⌋ := Int.floor_nonneg.2 hg
  constructor
  · intro hx
    obtain ⟨i, hi, hix⟩ := List.mem_map.1 hx
    have hirange := List.mem_range.1 hi
    have hle : (i : ℤ) ≤ ⌊g⌋ := by omega
    have hleR : (i : ℝ) ≤ g := by
      calc (i : ℝ) = ((i : ℤ) : ℝ) := by norm_cast
        _ ≤ ((⌊g⌋ : ℤ) : ℝ) := by exact_mod_cast hle
        _ ≤ g := Int.floor_le g
    exact ⟨i, hix.symm, by rw [← hix]; linarith⟩
  · rintro ⟨i, hx, hle⟩
    have hleR : (i : ℝ) ≤ g := by
      rw [hx] at hle
      linarith
    have hle2 : (i : ℤ) ≤ ⌊g⌋ := Int.le_floor.2 (by exact_mod_cast hleR)
    refine List.mem_map.2 ⟨i, List.mem_range.2 (by omega), hx.symm⟩

lemma mem_gridLatticePoints_iff (g : ℝ) (p : Vec3) :
    p ∈ gridLatticePoints g ↔
      p.x ∈ gridAxisPoints g ∧ p.y ∈ gridAxisPoints g ∧ p.z ∈ gridAxisPoints g := by
  unfold gridLatticePoints
  constructor
  · intro hp
    obtain ⟨x, hx, hp⟩ := List.mem_flatMap.1 hp
    obtain ⟨y, hy, hp⟩ := List.mem_flatMap.1 hp
    obtain ⟨z, hz, hp⟩ := List.mem_map.1 hp
    rw [← hp]
    exact ⟨hx, hy, hz⟩
  · rintro ⟨hx, hy, hz⟩
    exact List.mem_flatMap.2 ⟨p.x, hx, List.mem_flatMap.2 ⟨p.y, hy,
      List.mem_map.2 ⟨p.z, hz, rfl⟩⟩⟩

lemma thinned_length_le (l : List Vec3) (h : MAX_ARROWS < l.length) :
    (((l.enum).filter
        (fun p => p.1 % ((l.length + MAX_ARROWS - 1) / MAX_ARROWS) == 0)).map
      Prod.snd).length ≤ MAX_ARROWS := by
  unfold MAX_ARROWS at *
  set k := (l.length + 500 - 1) / 500 with hk
  have hk0 : 0 < k := by omega
  have hnk : l.length ≤ 500 * k := by omega
  have hsub : List.Sublist (((l.enum).filter (fun p => p.1 % k == 0)).map Prod.fst)
      (List.range l.length) := by
    have h1 : List.Sublist ((l.enum).filter (fun p => p.1 % k == 0)) l.enum :=
      List.filter_sublist _
    have h2 := h1.map Prod.fst
    rwa [List.enum_map_fst] at h2
  have hnodup : ((((l.enum).filter (fun p => p.1 % k == 0)).map Prod.fst)).Nodup :=
    hsub.nodup (List.nodup_range _)
  have hlen : ((((l.enum).filter (fun p => p.1 % k == 0)).map Prod.snd)).length =
      ((((l.enum).filter (fun p => p.1 % k == 0)).map Prod.fst)).length := by
    rw [List.length_map, List.length_map]
  rw [hlen, ← List.toFinset_card_of_nodup hnodup]
  have hsubset : ((((l.enum).filter (fun p => p.1 % k == 0)).map Prod.fst)).toFinset ⊆
      (Finset.range 500).image (fun j => j * k) := by
    intro i hi
    have hi' := List.mem_toFinset.1 hi
    have hilt : i < l.length := by
      have := hsub.subset hi'
      exact List.mem_range.1 this
    have himod : i % k = 0 := by
      obtain ⟨q, hq, hqi⟩ := List.mem_map.1 hi'
      have := List.of_mem_filter hq
      rw [← hqi]
      simpa using this
    have hdvd : k ∣ i := Nat.dvd_of_mod_eq_zero himod
    refine Finset.mem_image.2 ⟨i / k, Finset.mem_range.2 ?_, Nat.div_mul_cancel hdvd⟩
    exact (Nat.div_lt_iff_lt_mul hk0).2 (lt_of_lt_of_le hilt hnk)
  calc ((((l.enum).filter (fun p => p.1 % k == 0)).map Prod.fst)).toFinset.card
      ≤ ((Finset.range 500).image (fun j => j * k)).card := Finset.card_le_card hsubset
    _ ≤ (Finset.range 500).card := Finset.card_image_le
    _ = 500 := Finset.card_range 500

/-- C8. Grid generation: for every nonnegative grid half-extent, the
returned list has at most `MAX_ARROWS = 500` points; an axis value is
enumerated exactly when it is of the form `-gridSize + 2 * i` and at most
`gridSize` (the loop condition); a lattice point is enumerated exactly
when each coordinate is an enumerated axis value; and when the lattice
count does not exceed the cap the lattice is returned unthinned (the
thinning, keeping every `ceil (count / cap)`-th point, is applied
otherwise and is deterministic, the whole function being a pure function
of `gridSize`). -/
theorem grid_points_spec (g : ℝ) (hg : 0 ≤ g) :
    (generateGridPoints g).length ≤ MAX_ARROWS ∧
    (∀ x : ℝ, x ∈ gridAxisPoints g ↔ ∃ i : ℕ, x = -g + 2 * (i : ℝ) ∧ x ≤ g) ∧
    (∀ p : Vec3, p ∈ gridLatticePoints g ↔
      p.x ∈ gridAxisPoints g ∧ p.y ∈ gridAxisPoints g ∧ p.z ∈ gridAxisPoints g) ∧
    ((gridLatticePoints g).length ≤ MAX_ARROWS →
      generateGridPoints g = gridLatticePoints g) := by
  refine ⟨?_, mem_gridAxisPoints_iff g hg, mem_gridLatticePoints_iff g, ?_⟩
  · unfold generateGridPoints
    split_ifs with h
    · exact thinned_length_le _ h
    · exact not_lt.1 h
  · intro hle
    unfold generateGridPoints
    rw [if_neg (not_lt.2 hle)]

/-- C8 witness: the default grid half-extent 8 (a 9 by 9 by 9 lattice of
729 points, which gets thinned) stays within the cap. -/
theorem grid_points_witness : (generateGridPoints 8).length ≤ MAX_ARROWS :=
  (grid_points_spec 8 (by norm_num)).1

/-- Normalized display strength computed in the `FieldVectors` component
(the body of the `arrowData.map` callback): zero unless the tracked
maximum and the sample magnitude are positive; otherwise log-base-10
interpolation between the effective minimum (the tracked minimum, replaced
by `maxMagnitude * 1e-6` when zero, and floored at
`MIN_FIELD_THRESHOLD`) and the maximum, clamped to [0, 1]; and in the
degenerate case where the interpolation interval is empty, 1 for samples
at or above the maximum and 0.5 below. -/
def normalizedStrength (minMagnitude maxMagnitude magnitude : ℝ) : ℝ :=
  if 0 < maxMagnitude ∧ 0 < magnitude then
    if Real.logb 10 (max (if minMagnitude = 0 then maxMagnitude * 1e-6 else minMagnitude)
          MIN_FIELD_THRESHOLD) <
        Real.logb 10 maxMagnitude then
      max 0 (min 1 ((Real.logb 10 magnitude -
          Real.logb 10 (max (if minMagnitude = 0 then maxMagnitude * 1e-6 else minMagnitude)
            MIN_FIELD_THRESHOLD)) /
        (Real.logb 10 maxMagnitude -
          Real.logb 10 (max (if minMagnitude = 0 then maxMagnitude * 1e-6 else minMagnitude)
            MIN_FIELD_THRESHOLD))))
    else if maxMagnitude ≤ magnitude then 1 else 0.5
  else 0

/-- C9. Normalized display strength: when the tracked global minimum is
above the floor threshold, below the maximum, and at most the sample
magnitude, the assigned strength is exactly the clamped log-scale
interpolation between minimum and maximum; and in the degenerate case
where minimum, maximum and sample magnitude coincide (a single distinct
magnitude) the assigned strength is 1. -/
theorem normalized_strength_formula :
    (∀ minM maxM mag : ℝ, MIN_FIELD_THRESHOLD ≤ minM → minM < maxM → minM ≤ mag →
      normalizedStrength minM maxM mag =
        max 0 (min 1 ((Real.logb 10 mag - Real.logb 10 minM) /
          (Real.logb 10 maxM - Real.logb 10 minM)))) ∧
    (∀ m : ℝ, MIN_FIELD_THRESHOLD ≤ m → normalizedStrength m m m = 1) := by
  have hth : (0:ℝ) < MIN_FIELD_THRESHOLD := by norm_num [MIN_FIELD_THRESHOLD]
  constructor
  · intro minM maxM mag hfloor hlt hle
    have hmin0 : 0 < minM := lt_of_lt_of_le hth hfloor
    have hmagpos : 0 < mag := lt_of_lt_of_le hmin0 hle
    have hmaxpos : 0 < maxM := lt_trans hmin0 hlt
    unfold normalizedStrength
    rw [if_pos ⟨hmaxpos, hmagpos⟩, if_neg (by positivity : ¬ minM = 0),
      max_eq_left hfloor, if_pos (Real.logb_lt_logb (by norm_num) hmin0 hlt)]
  · intro m hm
    have hmpos : 0 < m := lt_of_lt_of_le hth hm
    unfold normalizedStrength
    rw [if_pos ⟨hmpos, hmpos⟩, if_neg (by positivity : ¬ m = 0), max_eq_left hm]
    rw [if_neg (lt_irrefl _), if_pos (le_refl m)]

/-- C9 witness: a concrete instance of the interpolation clause, with
minimum 1, maximum 100 and sample magnitude 10. -/
theorem normalized_strength_witness :
    normalizedStrength 1 100 10 =
      max 0 (min 1 ((Real.logb 10 10 - Real.logb 10 1) /
        (Real.logb 10 100 - Real.logb 10 1))) :=
  normalized_strength_formula.1 1 100 10 (by norm_num [MIN_FIELD_THRESHOLD])
    (by norm_num) (by norm_num)

end
